import Mathlib

/-!
Verification of the gitsu dependency-resolution core (`src/lib/core/Manager.js`).

This file shallowly embeds the parts of `Manager.js` that the verified
properties talk about: the compatibility oracle (`_areCompatible`, `_getCap`),
the conflict resolver (`_electSuitable`, `_storeResolution`), the dissect-phase
wildcard promotion, `_uniquify`, the resolved/fetching bookkeeping of
`_fetch` / `_onFetchSuccess` / `_onFetchError` / `_failFast`, the reentrancy
guard of `resolve()` and the cycle-guarded `toData` traversal.

Machine integers do not occur; JavaScript numbers used as counters are
embedded as `Int`.  Endpoint object identity is embedded as a numeric id
(`eid`): JavaScript's `===` on endpoint objects is modelled as equality of
these ids.

The semver utility (`src/lib/util/semver`) and `src/lib/util/Utils` are code
of this repository that is not under `src/`; the definitions below that stand
for them are modelled from the spec and say so in their doc comments.
-/

namespace Gitsu

/-- Modelled from the spec (glossary: "Semver range / version: as in the
semantic versioning specification").  A semantic version `major.minor.patch`;
prerelease tags never occur in the verified properties and are omitted. -/
structure Version where
  major : Nat
  minor : Nat
  patch : Nat
deriving DecidableEq, Repr

/-- Modelled from the spec: semver precedence, lexicographic on
(major, minor, patch).  `semver.compare v w` is `-1/0/1`. -/
def Version.comp (v w : Version) : Int :=
  if v.major < w.major then -1
  else if w.major < v.major then 1
  else if v.minor < w.minor then -1
  else if w.minor < v.minor then 1
  else if v.patch < w.patch then -1
  else if w.patch < v.patch then 1
  else 0

/-- `semver.lt` (modelled from the spec). -/
def Version.ltv (v w : Version) : Bool := Version.comp v w = -1

/-- `semver.gt` (modelled from the spec). -/
def Version.gtv (v w : Version) : Bool := Version.comp v w = 1

/-- Comparator prefix of a semver comparator token: one of
`''`, `<`, `<=`, `=`, `>=`, `>` (spec §4.2 lists exactly these). -/
inductive Cop where
  | emp   -- the empty prefix, as in the token `1.2.3`
  | ltc   -- `<`
  | lec   -- `<=`
  | eqc   -- `=`
  | gec   -- `>=`
  | gtc   -- `>`
deriving DecidableEq, Repr

/-- A comparator token such as `>=1.2.3`: a prefix and a version. -/
structure Comparator where
  op : Cop
  ver : Version
deriving DecidableEq, Repr

/-- Modelled from the spec: does version `v` satisfy one comparator token?
The empty prefix and `=` both mean equality. -/
def Comparator.sat (v : Version) (c : Comparator) : Bool :=
  match c.op with
  | Cop.emp => v = c.ver
  | Cop.ltc => Version.ltv v c.ver
  | Cop.lec => Version.ltv v c.ver || v = c.ver
  | Cop.eqc => v = c.ver
  | Cop.gec => Version.gtv v c.ver || v = c.ver
  | Cop.gtc => Version.gtv v c.ver

/-- A target string, classified the way `semver.valid` / `semver.validRange`
classify it in `_areCompatible`:
* `ver v`   — a plain version string (`valid` and `validRange` both truthy);
* `star`    — the literal `*` (a valid range, not a valid version);
* `rng r`   — any other valid range, carried in the parsed
  disjunction-of-conjunctions form that `semver.toComparators` produces
  (`validRange` truthy, `valid` falsy);
* `other s` — a branch/tag/any string that is neither
  (`valid` and `validRange` both falsy). -/
inductive Target where
  | ver (v : Version)
  | star
  | rng (r : List (List Comparator))
  | other (s : String)
deriving DecidableEq, Repr

/-- `semver.valid(target)` as a Bool (truthiness of the JS result). -/
def Target.validB : Target → Bool
  | Target.ver _ => true
  | _ => false

/-- `semver.validRange(target)` as a Bool (truthiness of the JS result). -/
def Target.validRangeB : Target → Bool
  | Target.ver _ => true
  | Target.star => true
  | Target.rng _ => true
  | Target.other _ => false

/-- Modelled from the spec: `semver.satisfies(v, target)`.  On an invalid
range the JS function returns `false` (it catches the parse error).
`*` is satisfied by every version. -/
def satisfiesT (v : Version) : Target → Bool
  | Target.ver w => v = w
  | Target.star => true
  | Target.rng r => r.any (fun grp => grp.all (Comparator.sat v))
  | Target.other _ => false

/-- `semver.satisfies` lifted to an optional version: endpoints without a
`pkgMeta.version` never satisfy anything (the code only calls `satisfies`
with a present version on the paths the theorems cover). -/
def vsat : Option Version → Target → Bool
  | none, _ => false
  | some v, t => satisfiesT v t

/-- `semver.eq` on versions. -/
def verEq (v w : Version) : Bool := v = w

/-- Package manifest fields that the verified properties read. -/
structure PkgMeta where
  name : String
  version : Option Version
  release : Option Target   -- `_release`
deriving DecidableEq, Repr

/-- The projection of an endpoint that `dependants` lists carry: identity
plus the fields `_uniquify` compares (name, source, target). -/
structure EpRef where
  eid : Nat
  name : Option String
  source : String
  target : Target
deriving DecidableEq, Repr

/-- A decomposed endpoint (the fields of the JS endpoint object that the
verified properties read).  `eid` is the object identity; `rid` is the cached
`_guid.rId` that `_storeResolution` keys the resolutions table by. -/
structure Ep where
  eid : Nat
  rid : String
  name : Option String
  initialName : Option String
  source : String
  target : Target
  originalTarget : Option Target
  pkgMeta : Option PkgMeta
  canonicalDir : Option String
  dependants : List EpRef
  newly : Bool
  unresolvable : Bool
  untargetable : Bool
deriving DecidableEq, Repr

/-- `decEndpoint.pkgMeta.version` with JS member access on a possibly
missing `pkgMeta` (the flows covered by the theorems always have it). -/
def Ep.version? (e : Ep) : Option Version := e.pkgMeta.bind PkgMeta.version

/-- `decEndpoint.pkgMeta._release`. -/
def Ep.release? (e : Ep) : Option Target := e.pkgMeta.bind PkgMeta.release

/-! ## `_getCap` and `_areCompatible` (Manager.js lines 1022-1141) -/

/-- The heterogeneous array `_getCap` walks: elements are either comparator
strings or nested arrays of the same shape. -/
inductive CompTree where
  | leaf (c : Comparator)
  | node (l : List CompTree)

/-- The `{ comparator, version }` record `_getCap` returns; the JS function
starts from the empty object `{}`, embedded as `none`. -/
structure Cap where
  comparator : Cop
  version : Version
deriving DecidableEq, Repr

/-- The `side` argument of `_getCap`. -/
inductive CapSide where
  | highest
  | lowest
deriving DecidableEq, Repr

/-- `var compare = side === 'lowest' ? semver.lt : semver.gt;` -/
def capCompare : CapSide → Version → Version → Bool
  | CapSide.lowest => Version.ltv
  | CapSide.highest => Version.gtv

/-!
`Manager.prototype._getCap` (lines 1108-1141): fold over the comparator
forest keeping the extreme version; a string token always splits into its
prefix and version here because `CompTree.leaf` carries the already-split
comparator (the regexp always matches the tokens `toComparators` emits).
When a nested array folds to the empty cap and the accumulator is
nonempty, the JS code would compare against `undefined` and throw; that
combination is outside every covered input (see `capSafe`) and the
accumulator is kept.
-/

mutual

/-- One iteration of the `comparators.forEach` body of `_getCap`: update
the running cap with a comparator token or with the recursively computed
cap of a nested array. -/
def getCapStep (side : CapSide) : Option Cap → CompTree → Option Cap
  | cap, CompTree.leaf c =>
      (match cap with
       | none => some { comparator := c.op, version := c.ver }
       | some cp =>
           if capCompare side c.ver cp.version then
             some { comparator := c.op, version := c.ver }
           else some cp)
  | cap, CompTree.node l =>
      (match cap, getCapFold side none l with
       | none, candidate => candidate
       | some cp, some cd =>
           if capCompare side cd.version cp.version then some cd else some cp
       | some cp, none => some cp)

/-- The `comparators.forEach` fold of `_getCap`. -/
def getCapFold (side : CapSide) : Option Cap → List CompTree → Option Cap
  | cap, [] => cap
  | cap, t :: rest => getCapFold side (getCapStep side cap t) rest

end

/-- `_getCap(comparators, side)` top level. -/
def getCap (comparators : List CompTree) (side : CapSide) : Option Cap :=
  getCapFold side none comparators

/-- Modelled from the spec: `semver.toComparators(target)` — the
disjunction-of-conjunctions comparator form of a range
(spec §4.2: "computed over the comparator list of a range").
A plain version yields one group with the bare token; `*` yields one group
whose only token has no version part, so `_getCap`'s regexp skips it and the
group is embedded as empty.  `_areCompatible` only reaches this call on
valid ranges, so the `other` case is arbitrary (empty). -/
def toComparators : Target → List CompTree
  | Target.ver v => [CompTree.node [CompTree.leaf { op := Cop.emp, ver := v }]]
  | Target.star => [CompTree.node []]
  | Target.rng r => r.map (fun grp => CompTree.node (grp.map CompTree.leaf))
  | Target.other _ => []

/-- The range shapes on which `_getCap` cannot hit the
empty-nested-cap-after-nonempty-cap situation (which would throw in JS):
every conjunction group of the range carries at least one token.
`*` is the single empty group, which is reached with an empty accumulator. -/
def Target.capSafe : Target → Bool
  | Target.star => true
  | Target.rng r => r.all (fun grp => !grp.isEmpty)
  | _ => false

/-- `Manager.prototype._areCompatible` (lines 1022-1084), translated
branch for branch. -/
def areCompatible (candidate resolved : Ep) : Bool :=
  let candidateIsRange := candidate.target.validRangeB
  let resolvedIsRange := resolved.target.validRangeB
  let candidateIsVersion := candidate.target.validB
  let resolvedIsVersion := resolved.target.validB
  -- Check if targets are equal
  if candidate.target = resolved.target then true
  else
    let resolvedVersion := resolved.pkgMeta.bind PkgMeta.version
    match resolvedVersion with
    | none =>
        -- If one of the targets is range and other is version,
        -- check version against the range
        if candidateIsVersion && resolvedIsRange then
          vsat (match candidate.target with | Target.ver v => some v | _ => none)
            resolved.target
        else if resolvedIsVersion && candidateIsRange then
          vsat (match resolved.target with | Target.ver v => some v | _ => none)
            candidate.target
        else if resolvedIsVersion && candidateIsVersion then
          match candidate.target, resolved.target with
          | Target.ver cv, Target.ver rv => verEq rv cv
          | _, _ => false
        -- If both targets are range, check that both have same higher cap
        else if resolvedIsRange && candidateIsRange then
          let highestCandidate := getCap (toComparators candidate.target) CapSide.highest
          let highestResolved := getCap (toComparators resolved.target) CapSide.highest
          match highestCandidate, highestResolved with
          | some hc, some hr =>
              verEq hc.version hr.version && decide (hc.comparator = hr.comparator)
          | _, _ => false   -- `if (!highestResolved.version || !highestCandidate.version)`
        else false
    | some rv =>
        -- If target is a version, compare against the resolved version
        if candidateIsVersion then
          match candidate.target with
          | Target.ver cv => verEq cv rv
          | _ => false
        -- If target is a range, check if resolved version satisfies it
        else if candidateIsRange then satisfiesT rv candidate.target
        else false

/-! ## `_uniquify` (Manager.js lines 1160-1192) -/

/-- The key comparison inside `_uniquify`: compare names when at least one
is set, fall back to sources when both are unset.  `continue` in the JS loop
corresponds to this returning `false`. -/
def uniquifyKeyEq (current e : EpRef) : Bool :=
  match current.name, e.name with
  | none, none => current.source = e.source
  | cn, en => cn = en

/-- Does some later element make `_uniquify` drop `e`?  (Same object, or
same name/source key with the same target.) -/
def uniquifyDrops (e : EpRef) (later : List EpRef) : Bool :=
  later.any (fun current =>
    current.eid = e.eid || (uniquifyKeyEq current e && current.target = e.target))

/-- `Manager.prototype._uniquify` (lines 1160-1192): keep an element iff no
later element has the same identity or the same (name|source, target) pair;
the last occurrence survives. -/
def uniquify (decEndpoints : List EpRef) : List EpRef :=
  (decEndpoints.enum.filter
    (fun p => !uniquifyDrops p.2 (decEndpoints.drop (p.1 + 1)))).map Prod.snd

/-! ## `_electSuitable` and `_storeResolution` (Manager.js lines 794-1006) -/

/-- The Manager state that `_electSuitable` / `_storeResolution` read and
write: the `conflicted` table (a set of rIds), the `resolutions` table, the
`forceLatest` flag and `config.interactive`. -/
structure MState where
  conflicted : List String
  resolutions : List (String × Target)
  forceLatest : Bool
  interactive : Bool
deriving DecidableEq, Repr

/-- `this._conflicted[rId] = true`. -/
def MState.setConflicted (st : MState) (rId : String) : MState :=
  if rId ∈ st.conflicted then st else { st with conflicted := rId :: st.conflicted }

/-- Assoc-table lookup (`this._resolutions[rId]`). -/
def lookupRes (tbl : List (String × Target)) (rId : String) : Option Target :=
  (tbl.find? (fun p => p.1 = rId)).map Prod.snd

/-- Assoc-table write (`this._resolutions[rId] = resolution`). -/
def upsertRes (tbl : List (String × Target)) (rId : String) (v : Target) :
    List (String × Target) :=
  if (tbl.find? (fun p => p.1 = rId)).isSome then
    tbl.map (fun p => if p.1 = rId then (p.1, v) else p)
  else tbl ++ [(rId, v)]

/-- `Manager.prototype._storeResolution` (lines 990-1006): key the table by
the pick's cached `_guid.rId`; the value is the pick's target unless the
target is `*`, in which case it is `pkgMeta._release || '*'`. -/
def storeResolution (pick : Ep) (st : MState) : MState :=
  let resolution :=
    if pick.target = Target.star then (pick.release?.getD Target.star)
    else pick.target
  { st with resolutions := upsertRes st.resolutions pick.rid resolution }

/-- The comparator `_electSuitable` sorts conflict picks with
(lines 838-868): version ascending; a versioned pick after an unversioned
one; ties broken by dependant count descending. -/
def pickCmp (pick1 pick2 : Ep) : Int :=
  let depTie : Int :=
    if pick2.dependants.length < pick1.dependants.length then -1
    else if pick1.dependants.length < pick2.dependants.length then 1
    else 0
  match pick1.version?, pick2.version? with
  | some v1, some v2 =>
      let comp := Version.comp v1 v2
      if comp ≠ 0 then comp else depTie
  | some _, none => 1
  | none, some _ => -1
  | none, none => depTie

/-- `pickCmp` as the `le` relation of a stable sort: JavaScript's stable
`Array.prototype.sort(cmp)` and `mergeSort` with `cmp ≤ 0` produce the same
list for a total preorder comparator like `pickCmp`. -/
def pickLe (pick1 pick2 : Ep) : Bool := pickCmp pick1 pick2 ≤ 0

/-- The sorted conflict picks list (`picks.sort(...)`, line 838). -/
def sortPicks (picks : List Ep) : List Ep := picks.mergeSort pickLe

/-- The only-semvers search (lines 819-824): the first candidate whose
version satisfies every other candidate's target (`===` is eid equality). -/
def findSuitable (semvers : List Ep) : Option Ep :=
  semvers.find? (fun subject =>
    semvers.all (fun decEndpoint =>
      decide (subject.eid = decEndpoint.eid) ||
        vsat subject.version? decEndpoint.target))

/-- The stored-resolution matching of lines 888-921, on the sorted picks:
match by range satisfaction first (when the resolution is a valid range),
then by exact target or `_release` equality; `none` is the warn-and-fall-
through case (`suitable === -1`). -/
def resolutionMatch (resolution : Target) (picks : List Ep) : Option Ep :=
  let byRange :=
    if resolution.validRangeB then
      picks.find? (fun pick =>
        pick.version?.isSome && vsat pick.version? resolution)
    else none
  match byRange with
  | some p => some p
  | none =>
      picks.find? (fun pick =>
        decide (pick.target = resolution) ||
          decide (pick.release? = some resolution))

/-- The outcome of `_electSuitable`: a resolved pick, an `ECONFLICT`
rejection carrying the (sorted) candidate picks, the interactive prompt —
a suspension on user input — carrying the same picks, or the TypeError the
JS code would hit indexing `picks[-1]` on an empty conflict (unreachable
from `_dissect`). -/
inductive ElectOutcome where
  | elected (pick : Ep)
  | conflictError (name : String) (picks : List Ep)
  | prompt (picks : List Ep)
  | tyError
deriving DecidableEq, Repr

/-- The conflict tail of `_electSuitable` (lines 833-948, after `picks` has
been filled): mark `conflicted[rId]`, sort the picks in place, try the
stored resolution, then force-latest, then non-interactive `ECONFLICT`,
else prompt. -/
def conflictStage (st : MState) (rId : String) (picks : List Ep) :
    MState × ElectOutcome :=
  -- At this point, there's a conflict
  let st1 := st.setConflicted rId
  let sorted := sortPicks picks
  let resolution := lookupRes st.resolutions rId
  let unresolvable := sorted.find? (fun pick => pick.unresolvable)
  let resolved : Option Ep :=
    match resolution with
    | none => none
    | some res =>
        if unresolvable.isSome then none
        else resolutionMatch res sorted
  match resolved with
  | some pick => (st1, ElectOutcome.elected pick)
  | none =>
      if st.forceLatest then
        match sorted.getLast? with
        | some pick => (storeResolution pick st1, ElectOutcome.elected pick)
        | none => (st1, ElectOutcome.tyError)
      else if !st.interactive then (st1, ElectOutcome.conflictError rId sorted)
      else (st1, ElectOutcome.prompt sorted)

/-- `Manager.prototype._electSuitable` (lines 794-948).  The prompt branch
is cut at the suspension on user input (`ElectOutcome.prompt`). -/
def electSuitable (st : MState) (rId : String) (semvers nonSemvers : List Ep) :
    MState × ElectOutcome :=
  match semvers, nonSemvers with
  -- If there are both semver and non-semver, there's no way to figure out
  -- the suitable one
  | _ :: _, _ :: _ => conflictStage st rId (semvers ++ nonSemvers)
  -- If there are only non-semver ones, the suitable is elected only if
  -- there's one
  | [], n :: ns =>
      if ns.isEmpty then (st, ElectOutcome.elected n)
      else conflictStage st rId nonSemvers
  -- If there are only semver ones, figure out which one is compatible with
  -- every requirement
  | _, [] =>
      match findSuitable semvers with
      | some suitable => (st, ElectOutcome.elected suitable)
      | none => conflictStage st rId semvers

/-- The picks list `_electSuitable` accumulates when (and only when) it
falls through to the conflict block, branch for branch. -/
def conflictPicks (semvers nonSemvers : List Ep) : Option (List Ep) :=
  match semvers, nonSemvers with
  | _ :: _, _ :: _ => some (semvers ++ nonSemvers)
  | [], _ :: ns => if ns.isEmpty then none else some nonSemvers
  | _, [] => if (findSuitable semvers).isSome then none else some semvers

/-- "No stored resolution applies" for a conflict on `rId` with the given
(sorted) picks: there is no stored entry, or an unresolvable pick blocks it,
or neither matching pass finds a pick (the warn-and-fall-through case). -/
def noResolutionApplies (st : MState) (rId : String) (sorted : List Ep) : Prop :=
  match lookupRes st.resolutions rId with
  | none => True
  | some res =>
      (sorted.find? (fun pick => pick.unresolvable)).isSome = true ∨
        resolutionMatch res sorted = none

instance (st : MState) (rId : String) (sorted : List Ep) :
    Decidable (noResolutionApplies st rId sorted) := by
  unfold noResolutionApplies
  match lookupRes st.resolutions rId with
  | none => exact inferInstanceAs (Decidable True)
  | some res => exact inferInstanceAs (Decidable (_ ∨ _))

/-! ## The dissect-phase semver processing (Manager.js lines 694-734) -/

/-- The dissect sort on semver candidates (lines 704-719): version
descending (`semver.rcompare`), wildcard targets last on ties. -/
def dissectCmp (first second : Ep) : Int :=
  let result :=
    match first.version?, second.version? with
    | some v1, some v2 => Version.comp v2 v1
    | _, _ => 0   -- dissect only sorts endpoints that have a version
  if result = 0 then
    if first.target = Target.star then 1
    else if second.target = Target.star then -1
    else result
  else result

/-- `dissectCmp` as a stable-sort `le` (same correspondence as `pickLe`). -/
def dissectLe (first second : Ep) : Bool := dissectCmp first second ≤ 0

/-- The target string `'~' + pkgMeta.version` written by the wildcard
promotion, in parsed form: `~M.m.p` is the range `>=M.m.p <M.(m+1).0`. -/
def tildeTarget (v : Version) : Target :=
  Target.rng [[{ op := Cop.gec, ver := v },
    { op := Cop.ltc, ver := { major := v.major, minor := v.minor + 1, patch := 0 } }]]

/-- The wildcard-to-range promotion of one semver endpoint
(lines 724-729).  Only endpoints with a version reach this map; the
versionless fallback mirrors the JS string concat with `undefined` and is
dead on every covered input. -/
def promoteOne (decEndpoint : Ep) : Ep :=
  if decEndpoint.newly && decide (decEndpoint.target = Target.star) &&
      !decEndpoint.untargetable then
    match decEndpoint.version? with
    | some v =>
        { decEndpoint with target := tildeTarget v,
                           originalTarget := some Target.star }
    | none =>
        { decEndpoint with target := Target.other "~undefined",
                           originalTarget := some Target.star }
  else decEndpoint

/-- The semver candidate list for one rId as `_dissect` leaves it
(lines 699-729): filter the endpoints that have a `pkgMeta.version`, sort
them descending, promote newly added wildcard targets. -/
def dissectSemvers (decEndpoints : List Ep) : List Ep :=
  ((decEndpoints.filter (fun e => e.version?.isSome)).mergeSort dissectLe).map
    promoteOne

/-- The non-semver candidate list for one rId (lines 732-734). -/
def dissectNonSemvers (decEndpoints : List Ep) : List Ep :=
  decEndpoints.filter (fun e => !e.version?.isSome)

/-! ## The fetch pipeline tables (Manager.js lines 379-584) -/

/-- Modelled from the spec (§3 "Identity"): the identity tuple
`Utils.getGuid(decEndpoint, preferredName?)` — `rId` is the name if known
(the preferred name overriding the endpoint's), else the normalized source
(normalization is embedded as the source itself); `fId` combines the source
with the requested target. -/
structure Guid where
  rId : String
  fId : String × Target
deriving DecidableEq, Repr

/-- See `Guid`. -/
def getGuid (e : Ep) (pref : Option String) : Guid :=
  { rId := ((pref.orElse (fun _ => e.name)).getD e.source),
    fId := (e.source, e.target) }

/-- Rendering of a target back to its string form, for
`path.join(decEndpoint.source, decEndpoint.target)` in `_onFetchSuccess`. -/
def copStr : Cop → String
  | Cop.emp => ""
  | Cop.ltc => "<"
  | Cop.lec => "<="
  | Cop.eqc => "="
  | Cop.gec => ">="
  | Cop.gtc => ">"

/-- See `copStr`. -/
def verStr (v : Version) : String :=
  toString v.major ++ "." ++ toString v.minor ++ "." ++ toString v.patch

/-- See `copStr`. -/
def targetStr : Target → String
  | Target.ver v => verStr v
  | Target.star => "*"
  | Target.rng r =>
      String.intercalate " || "
        (r.map (fun grp =>
          String.intercalate " " (grp.map (fun c => copStr c.op ++ verStr c.ver))))
  | Target.other s => s

/-- `var name = path.join(decEndpoint.source, decEndpoint.target);`
(line 426). -/
def fetchName (e : Ep) : String := e.source ++ "/" ++ targetStr e.target

/-- The per-run mutable tables of the fetch pipeline: `fetching` keyed by
fId, `resolved` keyed by rId, the `renamed` map, the `failed` table
(errors embedded as opaque numeric ids), `nrFetching` (a JS number, so an
`Int`) and the `hasFailed` fail-fast flag. -/
structure PS where
  fetching : List ((String × Target) × List Ep)
  resolved : List (String × List Ep)
  renamed : List (String × String)
  failed : List (String × List Nat)
  nrFetching : Int
  hasFailed : Bool
deriving DecidableEq, Repr

/-- Assoc lookup for string-keyed endpoint-list tables. -/
def lookupEps (tbl : List (String × List Ep)) (k : String) : Option (List Ep) :=
  (tbl.find? (fun p => p.1 = k)).map Prod.snd

/-- `tbl[k] = l` (replace or create). -/
def setEps (tbl : List (String × List Ep)) (k : String) (l : List Ep) :
    List (String × List Ep) :=
  if (tbl.find? (fun p => p.1 = k)).isSome then
    tbl.map (fun p => if p.1 = k then (p.1, l) else p)
  else tbl ++ [(k, l)]

/-- `(tbl[k] && tbl[k].push(e)) || (tbl[k] = [e])`. -/
def pushEps (tbl : List (String × List Ep)) (k : String) (e : Ep) :
    List (String × List Ep) :=
  match lookupEps tbl k with
  | some l => setEps tbl k (l ++ [e])
  | none => setEps tbl k [e]

/-- Same helpers for the fId-keyed `fetching` table. -/
def lookupFet (tbl : List ((String × Target) × List Ep)) (k : String × Target) :
    Option (List Ep) :=
  (tbl.find? (fun p => p.1 = k)).map Prod.snd

/-- See `lookupFet`. -/
def pushFet (tbl : List ((String × Target) × List Ep)) (k : String × Target)
    (e : Ep) : List ((String × Target) × List Ep) :=
  if (tbl.find? (fun p => p.1 = k)).isSome then
    tbl.map (fun p => if p.1 = k then (p.1, p.2 ++ [e]) else p)
  else tbl ++ [(k, [e])]

/-- `mout.array.remove(arr, item)`: remove the first occurrence (identity
comparison, i.e. by eid). -/
def removeFirstEid : List Ep → Nat → List Ep
  | [], _ => []
  | x :: xs, i => if x.eid = i then xs else x :: removeFirstEid xs i

/-- `mout.array.remove(this._fetching[k], decEndpoint)` applied inside the
table. -/
def removeFet (tbl : List ((String × Target) × List Ep)) (k : String × Target)
    (eid : Nat) : List ((String × Target) × List Ep) :=
  tbl.map (fun p => if p.1 = k then (p.1, removeFirstEid p.2 eid) else p)

/-- `this._failed[rId].push(err)` (with creation). -/
def pushFailed (tbl : List (String × List Nat)) (k : String) (err : Nat) :
    List (String × List Nat) :=
  if (tbl.find? (fun p => p.1 = k)).isSome then
    tbl.map (fun p => if p.1 = k then (p.1, p.2 ++ [err]) else p)
  else tbl ++ [(k, [err])]

/-- The twin handling when `_onFetchSuccess` inserts into
`resolved[newRId]` (lines 486-498).  When an endpoint with the same target
and source is already present, the JS code intends to merge its dependants,
but the expression it reads them from is `resolved[index.dependants]`:
`index` is a Number, `index.dependants` is `undefined`, `resolved[undefined]`
is `undefined`, and `Function.prototype.apply` with an `undefined` argument
list appends nothing — so the twin's dependants are dropped.  The
endpoint's own dependants are then uniquified, the twin is spliced out, and
the endpoint is pushed. -/
def nextStepInsert (resolvedL : List Ep) (e : Ep) : List Ep :=
  match resolvedL.findIdx? (fun r =>
      decide (r.target = e.target) && decide (r.source = e.source)) with
  | some index =>
      let e1 := { e with dependants := uniquify e.dependants }
      (resolvedL.eraseIdx index) ++ [e1]
  | none => resolvedL ++ [e]

/-- The synchronous `nextStep` closure of `_onFetchSuccess`
(lines 461-541), restricted to its effect on the pipeline tables: remove
the endpoint from `fetching`, decrement `nrFetching`, set the authoritative
name (the manifest name after a rename, the source/target join otherwise),
record `canonicalDir`/`pkgMeta`, recompute the guid and insert into
`resolved[newRId]` with twin handling.  (`_oldName` and the recursive
dependency expansion act on other endpoints and are modelled by the
separate `fetchM` transition.) -/
def nextStepState (st : PS) (e : Ep) (iname : Option String) (oldGuid : Guid)
    (renamedTo : Option String) (name0 : String) (canonicalDir : String)
    (pkgMeta : PkgMeta) : PS :=
  let fetching1 := removeFet st.fetching oldGuid.fId e.eid
  let nr1 := st.nrFetching - 1
  let e1 :=
    match renamedTo with
    | some newName => { e with name := some newName }
    | none => { e with name := some name0 }
  let e2 := { e1 with canonicalDir := some canonicalDir, pkgMeta := some pkgMeta }
  let newGuid := getGuid e2 iname
  let resolvedL := (lookupEps st.resolved newGuid.rId).getD []
  { st with fetching := fetching1, nrFetching := nr1,
            resolved := setEps st.resolved newGuid.rId (nextStepInsert resolvedL e2) }

/-- `Manager.prototype._onFetchSuccess` (lines 416-541) as the list of
pipeline-table states at its suspension boundaries.  On a rename
(manifest name differs from the source/target join and was not already
renamed to it) the endpoint is first pushed into `resolved[oldRId]` and the
rename recorded, then the code suspends on the filesystem move — the first
returned state — and only afterwards runs `nextStep`, whose result is the
final state.  Without a rename, `nextStep` runs synchronously and the final
state is the only boundary. -/
def onFetchSuccessStates (st : PS) (e : Ep) (canonicalDir : String)
    (pkgMeta : PkgMeta) : List PS :=
  let iname := e.initialName.orElse (fun _ => e.name)
  let name0 := fetchName e
  let oldGuid := getGuid e iname
  if name0 ≠ pkgMeta.name ∧
      ((st.renamed.find? (fun p => p.1 = pkgMeta.name)).map Prod.snd ≠ some name0) then
    let renamed1 :=
      if (st.renamed.find? (fun p => p.1 = name0)).isSome then
        st.renamed.map (fun p => if p.1 = name0 then (p.1, pkgMeta.name) else p)
      else st.renamed ++ [(name0, pkgMeta.name)]
    let st1 := { st with resolved := pushEps st.resolved oldGuid.rId e,
                         renamed := renamed1 }
    [st1, nextStepState st1 e iname oldGuid (some pkgMeta.name) name0 canonicalDir pkgMeta]
  else
    [nextStepState st e iname oldGuid none name0 canonicalDir pkgMeta]

/-- `Manager.prototype._fetch` (lines 379-414), restricted to its effect on
the pipeline tables.  The Bool records whether `repository.fetch` is
invoked: when `hasFailed` is set the function returns before touching
anything. -/
def fetchM (st : PS) (e : Ep) : PS × Bool :=
  -- Check if the whole process started to fail fast
  if st.hasFailed then (st, false)
  else
    let guid := getGuid e none
    ({ st with fetching := pushFet st.fetching guid.fId e,
               nrFetching := st.nrFetching + 1 }, true)

/-- `Manager.prototype._failFast` (lines 571-584), restricted to the flag
(the 20 s timer only forces a dissect and never clears `hasFailed`). -/
def failFastM (st : PS) : PS :=
  if st.hasFailed then st else { st with hasFailed := true }

/-- `Manager.prototype._onFetchError` (lines 546-569), restricted to its
effect on the pipeline tables; the error is an opaque id. -/
def onFetchErrorM (st : PS) (e : Ep) (err : Nat) : PS :=
  let guid := getGuid e none
  failFastM
    { st with fetching := removeFet st.fetching guid.fId e.eid,
              nrFetching := st.nrFetching - 1,
              failed := pushFailed st.failed guid.rId err }

/-- All endpoint ids held by an fId-keyed endpoint-list table. -/
def fetEids (tbl : List ((String × Target) × List Ep)) : List Nat :=
  (tbl.map (fun p => p.2.map Ep.eid)).flatten

/-- All endpoint ids held by an rId-keyed endpoint-list table. -/
def resEids (tbl : List (String × List Ep)) : List Nat :=
  (tbl.map (fun p => p.2.map Ep.eid)).flatten

/-- All endpoint ids held by the `fetching` table. -/
def PS.fetchingEids (st : PS) : List Nat := fetEids st.fetching

/-- All endpoint ids held by the `resolved` table. -/
def PS.resolvedEids (st : PS) : List Nat := resEids st.resolved

/-- The invariant "an endpoint in `fetching` is never also in `resolved`". -/
def PS.disjointFR (st : PS) : Prop :=
  ∀ i, i ∈ st.fetchingEids → i ∉ st.resolvedEids

instance (st : PS) : Decidable st.disjointFR := by
  unfold PS.disjointFR
  exact List.decidableBAll _ _

/-! ## The `resolve()` entry guard (Manager.js lines 96-142) -/

/-- The Manager fields `resolve()` reads and resets on entry.
`deferredGen` numbers the `Q.defer()` instances: a new entry replaces the
run's deferred promise. -/
structure RState where
  working : Bool
  fetching : List ((String × Target) × List Ep)
  nrFetching : Int
  failed : List (String × List Nat)
  hasFailed : Bool
  deferredGen : Nat
deriving DecidableEq, Repr

/-- What a call to `resolve()` does synchronously. -/
inductive ResolveStart where
  | eworking          -- `Q.reject(createError('Already working', 'EWORKING'))`
  | started           -- per-run state reset, fetches/dissect scheduled
deriving DecidableEq, Repr

/-- The synchronous entry of `Manager.prototype.resolve` (lines 96-118):
reject with `EWORKING` when `_working` is truthy, otherwise reset the
per-run tables and start fetching.  Note that neither this function nor any
other code in `Manager.js` ever sets `_working` to `true`; the flag is only
ever assigned `false`, in the `.fin` handlers of `resolve` and `install`
(lines 140, 321). -/
def resolveEntry (st : RState) : RState × ResolveStart :=
  -- If already resolving, error out
  if st.working then (st, ResolveStart.eworking)
  else
    -- Reset stuff
    ({ st with fetching := [], nrFetching := 0, failed := [],
               hasFailed := false, deferredGen := st.deferredGen + 1 },
     ResolveStart.started)

/-! ## `toData` (Manager.js lines 325-371) -/

/-- An endpoint node of the dependency graph as `toData` reads it, with
object references embedded as arena indices (`dependants` only contributes
its size; `dependencies` maps declared keys to child indices). -/
structure GEp where
  name : Option String
  source : String
  target : Target
  canonicalDir : Option String
  pkgMeta : Option PkgMeta
  dependants : List Nat
  dependencies : List (String × Nat)
deriving DecidableEq, Repr

/-- The endpoint arena: the dependency graph, possibly cyclic. -/
abbrev Store := List (Nat × GEp)

/-- Modelled from the spec (§3 "Identity"): `Utils.uniqueId(decEndpoint)`,
the strict tuple of name, source and target. -/
def uniqueId (e : GEp) : Option String × String × Target :=
  (e.name, e.source, e.target)

/-- Arena lookup. -/
def lookupStore (store : Store) (eid : Nat) : Option GEp :=
  ((store : List (Nat × GEp)).find? (fun p => p.1 = eid)).map Prod.snd

/-- The record `toData` returns: the picked endpoint fields, the recursively
rendered dependencies (ordered by dependency name) and the dependant
count. -/
inductive ToData where
  | mk (endpoint : Option String × String × Target)
       (canonicalDir : Option String) (pkgMeta : Option PkgMeta)
       (dependencies : List (String × ToData)) (nrDependants : Nat)

mutual

/-- `Manager.prototype.toData` (lines 325-371) with explicit recursion
fuel: `none` means the fuel ran out before the traversal finished, so
`(toDataF store fuel eid upperDeps).isSome` states that the recursion
terminates within `fuel` nested calls.  Children whose `uniqueId` already
occurs in the ancestor chain `upperDeps` are skipped (the cycle guard of
lines 358-364); the others recurse with the current id appended.  A
dangling arena index cannot arise from a JS object graph and yields a
blank node. -/
def toDataF (store : Store) : Nat → Nat → List (Option String × String × Target) →
    Option ToData
  | 0, _, _ => none
  | Nat.succ fuel, eid, upperDeps =>
      match lookupStore store eid with
      | none => some (ToData.mk (none, "", Target.star) none none [] 0)
      | some e =>
          let id := uniqueId e
          -- `Object.keys(decEndpoint.dependencies).sort()`
          let names := e.dependencies.mergeSort (fun a b => decide (a.1 ≤ b.1))
          match toDataChildren store fuel names upperDeps id with
          | none => none
          | some deps =>
              some (ToData.mk (e.name, e.source, e.target) e.canonicalDir
                e.pkgMeta deps e.dependants.length)

/-- The dependency loop of `toData` (lines 355-365): same fuel threaded to
every child call. -/
def toDataChildren (store : Store) (fuel : Nat) :
    List (String × Nat) → List (Option String × String × Target) →
    Option String × String × Target → Option (List (String × ToData))
  | [], _, _ => some []
  | (nm, cid) :: rest, upperDeps, id =>
      match lookupStore store cid with
      | none => toDataChildren store fuel rest upperDeps id
      | some child =>
          if uniqueId child ∈ upperDeps then
            toDataChildren store fuel rest upperDeps id
          else
            match toDataF store fuel cid (upperDeps ++ [id]) with
            | none => none
            | some d =>
                match toDataChildren store fuel rest upperDeps id with
                | none => none
                | some ds => some ((nm, d) :: ds)

end

/-- All `uniqueId`s present in the arena. -/
def allIds (store : Store) : List (Option String × String × Target) :=
  (store : List (Nat × GEp)).map (fun p => uniqueId p.2)

/-- The `uniqueId` of an arena index (blank for a dangling index, which
returns without recursing anyway). -/
def uidOf (store : Store) (eid : Nat) : Option String × String × Target :=
  match lookupStore store eid with
  | some e => uniqueId e
  | none => (none, "", Target.star)

/-- The termination measure of the `toData` recursion: twice the number of
arena ids not yet on the ancestor chain, plus one when the current node's
id is already on the chain (a node can be entered with its own id on the
chain only when it shares the id of its immediate parent, and then all of
its children are either blocked or fresh). -/
def tmeasure (store : Store) (eid : Nat)
    (upper : List (Option String × String × Target)) : Nat :=
  2 * ((allIds store).toFinset \ upper.toFinset).card +
    (if uidOf store eid ∈ upper then 1 else 0)

/-! ## Concrete data for witnesses and counterexamples -/

/-- A plain endpoint for concrete evaluations: name, source and cached rId
all equal to `rid`; no dependants or flags. -/
def mkEp (eid : Nat) (rid : String) (target : Target) (version : Option Version) : Ep :=
  { eid := eid, rid := rid, name := some rid, initialName := none,
    source := rid, target := target, originalTarget := none,
    pkgMeta := some { name := rid, version := version, release := none },
    canonicalDir := none, dependants := [], newly := false,
    unresolvable := false, untargetable := false }

/-- An empty election state: nothing conflicted, nothing stored,
non-interactive, no force-latest. -/
def mst0 : MState :=
  { conflicted := [], resolutions := [], forceLatest := false, interactive := false }

/-- `1.0.0`, `1.2.3`, ... shorthands. -/
def v100 : Version := { major := 1, minor := 0, patch := 0 }

/-- See `v100`. -/
def v123 : Version := { major := 1, minor := 2, patch := 3 }

/-- See `v100`. -/
def v120 : Version := { major := 1, minor := 2, patch := 0 }

/-- See `v100`. -/
def v130 : Version := { major := 1, minor := 3, patch := 0 }

/-- See `v100`. -/
def v150 : Version := { major := 1, minor := 5, patch := 0 }

/-- See `v100`. -/
def v200 : Version := { major := 2, minor := 0, patch := 0 }

/-- Witness endpoints for the only-semvers election: the first candidate's
version `1.2.3` satisfies the second's target `>=1.2.0 <1.3.0`. -/
def w1a : Ep :=
  mkEp 1 "pkg" (Target.rng [[{ op := Cop.gec, ver := v100 },
    { op := Cop.ltc, ver := v200 }]]) (some v123)

/-- See `w1a`. -/
def w1b : Ep :=
  mkEp 2 "pkg" (Target.rng [[{ op := Cop.gec, ver := v120 },
    { op := Cop.ltc, ver := v130 }]]) (some v100)

/-- Conflicting picks for the force-latest counterexample: exact targets
`1.0.0` and `2.0.0`, neither version satisfying the other's target. -/
def ce1 : Ep := mkEp 1 "a" (Target.ver v100) (some v100)

/-- See `ce1`. -/
def ce2 : Ep := mkEp 2 "a" (Target.ver v200) (some v200)

/-- A state with `forceLatest` set and a stored resolution for `a` that
matches the lower pick `ce1`. -/
def stC3 : MState :=
  { conflicted := [], resolutions := [("a", Target.ver v100)],
    forceLatest := true, interactive := false }

/-- A state with `forceLatest` set and no stored resolutions. -/
def stFL : MState :=
  { conflicted := [], resolutions := [], forceLatest := true, interactive := false }

/-- Witness endpoints for the range-vs-range compatibility check: both
ranges cap at `<2.0.0` but have different lower bounds. -/
def w4c : Ep :=
  mkEp 1 "p" (Target.rng [[{ op := Cop.gec, ver := v100 },
    { op := Cop.ltc, ver := v200 }]]) none

/-- See `w4c`. -/
def w4r : Ep :=
  mkEp 2 "p" (Target.rng [[{ op := Cop.gec, ver := v150 },
    { op := Cop.ltc, ver := v200 }]]) none

/-- Witness endpoint for the wildcard promotion: newly added, target `*`,
targetable, version `1.2.3`. -/
def w5e : Ep := { mkEp 1 "n" Target.star (some v123) with newly := true }

/-- Endpoint for the rename-window counterexample: requested without a
name (`rId` falls back to the source), fetched under fId
`("repo", "v1")`. -/
def c6Ep : Ep :=
  { eid := 1, rid := "repo", name := none, initialName := none,
    source := "repo", target := Target.other "v1", originalTarget := none,
    pkgMeta := none, canonicalDir := none, dependants := [], newly := false,
    unresolvable := false, untargetable := false }

/-- Pipeline state with `c6Ep` in flight and nothing resolved. -/
def c6St : PS :=
  { fetching := [(("repo", Target.other "v1"), [c6Ep])], resolved := [],
    renamed := [], failed := [], nrFetching := 1, hasFailed := false }

/-- The fetched manifest declares the name `foo`, different from the
source/target join `repo/v1`, so the rename path triggers. -/
def c6Pkg : PkgMeta := { name := "foo", version := none, release := none }

/-- The first suspension boundary (the filesystem move) of
`_onFetchSuccess` on the rename-window counterexample. -/
def c6Mid : PS := (onFetchSuccessStates c6St c6Ep "/tmp/canonical" c6Pkg).headD c6St

/-- Pipeline state for the non-rename witness: the fetched manifest name
equals the source/target join, so no rename happens. -/
def c6wEp : Ep :=
  { eid := 3, rid := "lib", name := none, initialName := none,
    source := "lib", target := Target.other "v2", originalTarget := none,
    pkgMeta := none, canonicalDir := none, dependants := [], newly := false,
    unresolvable := false, untargetable := false }

/-- See `c6wEp`. -/
def c6wSt : PS :=
  { fetching := [(("lib", Target.other "v2"), [c6wEp])],
    resolved := [("other", [mkEp 9 "other" Target.star none])],
    renamed := [], failed := [], nrFetching := 1, hasFailed := false }

/-- See `c6wEp`: manifest name equal to `lib/v2`, the source/target join. -/
def c6wPkg : PkgMeta := { name := "lib/v2", version := none, release := none }

/-- A dependant of the already-resolved twin in the dropped-dependants
demonstration. -/
def c7d : EpRef := { eid := 10, name := some "dep", source := "dep", target := Target.star }

/-- A dependant of the newly fetched endpoint. -/
def c7p : EpRef := { eid := 11, name := some "par", source := "par", target := Target.star }

/-- The twin already present in `resolved[rId]`: same source and target as
the fetched endpoint, with its own dependant `c7d`. -/
def c7twin : Ep := { mkEp 1 "a" (Target.ver v100) (some v100) with dependants := [c7d] }

/-- The newly fetched endpoint with dependant `c7p`. -/
def c7e : Ep := { mkEp 2 "a" (Target.ver v100) (some v100) with dependants := [c7p] }

/-- A Manager state in the middle of a `resolve()` run: one fetch in
flight — and `_working` is `false`, because no code path ever set it. -/
def c8Mid : RState :=
  { working := false, fetching := [(("repo", Target.other "v1"), [c6Ep])],
    nrFetching := 1, failed := [], hasFailed := false, deferredGen := 1 }

/-- A pipeline state in which a fetch error has already set `hasFailed`. -/
def c10St : PS :=
  { fetching := [(("lib", Target.other "v2"), [c6wEp])], resolved := [],
    renamed := [], failed := [("repo", [0])], nrFetching := 1, hasFailed := true }

/-- A two-node cyclic dependency graph (`a` and `b` depend on each other)
plus a self-loop on `a`, for the cycle-guard witness. -/
def c9Store : Store :=
  [(0, { name := some "a", source := "sa", target := Target.star,
         canonicalDir := none, pkgMeta := none, dependants := [1],
         dependencies := [("b", 1), ("a", 0)] }),
   (1, { name := some "b", source := "sb", target := Target.star,
         canonicalDir := none, pkgMeta := none, dependants := [0],
         dependencies := [("a", 0)] })]

/-! ## Theorems -/

theorem findSuitable_isSome_of_exists (semvers : List Ep)
    (hex : ∃ s ∈ semvers, ∀ d ∈ semvers,
      d.eid = s.eid ∨ vsat s.version? d.target = true) :
    (findSuitable semvers).isSome = true := by
  obtain ⟨s, hs, hsat⟩ := hex
  unfold findSuitable
  rw [List.find?_isSome]
  refine ⟨s, hs, ?_⟩
  rw [List.all_eq_true]
  intro d hd
  rcases hsat d hd with h | h
  · simp [h]
  · simp [h]

/-- C1: when the candidate list of a logical package contains only semver
endpoints and some candidate's version satisfies every other candidate's
target range, `_electSuitable(rId, semvers, nonSemvers)` resolves with such
a candidate and leaves the Manager state — in particular
`conflicted[rId]` — untouched. -/
theorem electSuitable_semver_success (st : MState) (rId : String)
    (semvers : List Ep)
    (hall : ∀ e ∈ semvers, e.version?.isSome = true)
    (hex : ∃ s ∈ semvers, ∀ d ∈ semvers,
      d.eid = s.eid ∨ vsat s.version? d.target = true) :
    ∃ pick, electSuitable st rId semvers [] = (st, ElectOutcome.elected pick) ∧
      pick ∈ semvers ∧
      ∀ d ∈ semvers, d.eid ≠ pick.eid → vsat pick.version? d.target = true := by
  have hp := findSuitable_isSome_of_exists semvers hex
  obtain ⟨pick, hfind⟩ := Option.isSome_iff_exists.mp hp
  have hmem : pick ∈ semvers := by
    unfold findSuitable at hfind
    exact List.mem_of_find?_eq_some hfind
  have hprop : ∀ d ∈ semvers, d.eid ≠ pick.eid → vsat pick.version? d.target = true := by
    unfold findSuitable at hfind
    have hall2 := List.find?_some hfind
    rw [List.all_eq_true] at hall2
    intro d hd hne
    have := hall2 d hd
    rcases Bool.or_eq_true_iff.mp this with h | h
    · exact absurd (decide_eq_true_eq.mp h).symm hne
    · exact h
  refine ⟨pick, ?_, hmem, hprop⟩
  cases semvers with
  | nil => exact absurd hp (by simp [findSuitable])
  | cons a l =>
      simp only [electSuitable]
      rw [hfind]

/-- Closed witness for `electSuitable_semver_success`: two candidates where
the first's version `1.2.3` satisfies the second's range `>=1.2.0 <1.3.0`. -/
theorem electSuitable_semver_success_witness :
    ((∀ e ∈ [w1a, w1b], e.version?.isSome = true) ∧
      ∃ s ∈ [w1a, w1b], ∀ d ∈ [w1a, w1b],
        d.eid = s.eid ∨ vsat s.version? d.target = true) ∧
    ∃ pick, electSuitable mst0 "pkg" [w1a, w1b] [] =
        (mst0, ElectOutcome.elected pick) ∧
      pick ∈ [w1a, w1b] ∧
      ∀ d ∈ [w1a, w1b], d.eid ≠ pick.eid → vsat pick.version? d.target = true :=
  ⟨⟨by decide, by decide⟩,
    electSuitable_semver_success mst0 "pkg" [w1a, w1b] (by decide) (by decide)⟩

theorem electSuitable_eq_conflictStage (st : MState) (rId : String)
    (semvers nonSemvers picks : List Ep)
    (h : conflictPicks semvers nonSemvers = some picks) :
    electSuitable st rId semvers nonSemvers = conflictStage st rId picks := by
  cases semvers with
  | cons a l =>
      cases nonSemvers with
      | cons b m =>
          simp only [conflictPicks, Option.some.injEq] at h
          simp only [electSuitable, h]
      | nil =>
          simp only [conflictPicks] at h
          cases hfs : findSuitable (a :: l) with
          | some s => rw [hfs] at h; simp at h
          | none =>
              rw [hfs] at h
              simp only [Option.isSome_none, Bool.false_eq_true, if_false,
                Option.some.injEq] at h
              subst h
              simp only [electSuitable, hfs]
  | nil =>
      cases nonSemvers with
      | cons b m =>
          simp only [conflictPicks] at h
          cases hm : m.isEmpty with
          | true => rw [hm] at h; simp at h
          | false =>
              rw [hm] at h
              simp only [Bool.false_eq_true, if_false, Option.some.injEq] at h
              simp only [electSuitable, hm, Bool.false_eq_true, if_false, h]
      | nil =>
          simp only [conflictPicks] at h
          have hfs : findSuitable ([] : List Ep) = none := by
            unfold findSuitable; rfl
          rw [hfs] at h
          simp only [Option.isSome_none, Bool.false_eq_true, if_false,
            Option.some.injEq] at h
          subst h
          simp only [electSuitable, hfs]

theorem electSuitable_elected_of_no_conflict (st : MState) (rId : String)
    (semvers nonSemvers : List Ep) (h : conflictPicks semvers nonSemvers = none) :
    ∃ pick, electSuitable st rId semvers nonSemvers = (st, ElectOutcome.elected pick) := by
  cases semvers with
  | cons a l =>
      cases nonSemvers with
      | cons b m => simp [conflictPicks] at h
      | nil =>
          simp only [conflictPicks] at h
          cases hfs : findSuitable (a :: l) with
          | some s => exact ⟨s, by simp only [electSuitable, hfs]⟩
          | none => rw [hfs] at h; simp at h
  | nil =>
      cases nonSemvers with
      | cons b m =>
          simp only [conflictPicks] at h
          cases hm : m.isEmpty with
          | true => exact ⟨b, by simp only [electSuitable, hm, if_true]⟩
          | false => rw [hm] at h; simp at h
      | nil =>
          have hfs : findSuitable ([] : List Ep) = none := by unfold findSuitable; rfl
          simp only [conflictPicks, hfs] at h
          simp at h

theorem conflictStage_error_iff (st : MState) (rId : String) (picks : List Ep)
    (nm : String) (ps : List Ep) :
    (conflictStage st rId picks).2 = ElectOutcome.conflictError nm ps ↔
      (nm = rId ∧ ps = sortPicks picks ∧
        noResolutionApplies st rId (sortPicks picks) ∧
        st.forceLatest = false ∧ st.interactive = false) := by
  unfold conflictStage noResolutionApplies
  rcases hlr : lookupRes st.resolutions rId with _ | res
  · simp only [hlr]
    cases hfl : st.forceLatest with
    | false =>
        cases hint : st.interactive with
        | false => simp [ElectOutcome.conflictError.injEq, eq_comm]
        | true => simp
    | true =>
        cases hgl : (sortPicks picks).getLast? with
        | none => simp [hgl]
        | some pick => simp [hgl]
  · simp only [hlr]
    cases hun : ((sortPicks picks).find? fun pick => pick.unresolvable).isSome with
    | true =>
        simp only [hun, if_true]
        cases hfl : st.forceLatest with
        | false =>
            cases hint : st.interactive with
            | false => simp [ElectOutcome.conflictError.injEq, eq_comm]
            | true => simp
        | true =>
            cases hgl : (sortPicks picks).getLast? with
            | none => simp [hgl]
            | some pick => simp [hgl]
    | false =>
        simp only [hun, Bool.false_eq_true, if_false]
        cases hrm : resolutionMatch res (sortPicks picks) with
        | some pick => simp [hrm]
        | none =>
            simp only [hrm]
            cases hfl : st.forceLatest with
            | false =>
                cases hint : st.interactive with
                | false => simp [ElectOutcome.conflictError.injEq, eq_comm]
                | true => simp
            | true =>
                cases hgl : (sortPicks picks).getLast? with
                | none => simp [hgl]
                | some pick => simp [hgl]

/-- C2: within `_electSuitable` — the only place `ECONFLICT` is created —
the election fails with an `ECONFLICT` error carrying the (sorted)
candidate picks exactly when the conflict block is reached, no stored
`resolutions[rId]` entry applies, `forceLatest` is not set and
`config.interactive` is false. -/
theorem electSuitable_econflict_characterization (st : MState) (rId : String)
    (semvers nonSemvers : List Ep) :
    ((∃ nm ps, (electSuitable st rId semvers nonSemvers).2 =
        ElectOutcome.conflictError nm ps) ↔
      (∃ picks, conflictPicks semvers nonSemvers = some picks ∧
        noResolutionApplies st rId (sortPicks picks) ∧
        st.forceLatest = false ∧ st.interactive = false)) ∧
    (∀ nm ps, (electSuitable st rId semvers nonSemvers).2 =
        ElectOutcome.conflictError nm ps →
      nm = rId ∧ ∃ picks, conflictPicks semvers nonSemvers = some picks ∧
        ps = sortPicks picks) := by
  constructor
  · constructor
    · rintro ⟨nm, ps, h⟩
      cases hcp : conflictPicks semvers nonSemvers with
      | none =>
          obtain ⟨pick, he⟩ := electSuitable_elected_of_no_conflict st rId _ _ hcp
          rw [he] at h
          simp at h
      | some picks =>
          rw [electSuitable_eq_conflictStage st rId _ _ picks hcp] at h
          obtain ⟨h1, h2, h3, h4, h5⟩ := (conflictStage_error_iff st rId picks nm ps).mp h
          exact ⟨picks, rfl, h3, h4, h5⟩
    · rintro ⟨picks, hcp, hnores, hfl, hint⟩
      refine ⟨rId, sortPicks picks, ?_⟩
      rw [electSuitable_eq_conflictStage st rId _ _ picks hcp]
      exact (conflictStage_error_iff st rId picks rId (sortPicks picks)).mpr
        ⟨rfl, rfl, hnores, hfl, hint⟩
  · intro nm ps h
    cases hcp : conflictPicks semvers nonSemvers with
    | none =>
        obtain ⟨pick, he⟩ := electSuitable_elected_of_no_conflict st rId _ _ hcp
        rw [he] at h
        simp at h
    | some picks =>
        rw [electSuitable_eq_conflictStage st rId _ _ picks hcp] at h
        obtain ⟨h1, h2, h3, h4, h5⟩ := (conflictStage_error_iff st rId picks nm ps).mp h
        exact ⟨h1, picks, rfl, h2⟩

/-- Closed instantiation of `electSuitable_econflict_characterization` at a
concrete conflicting candidate set. -/
theorem electSuitable_econflict_characterization_witness :
    ((∃ nm ps, (electSuitable mst0 "a" [ce1, ce2] []).2 =
        ElectOutcome.conflictError nm ps) ↔
      (∃ picks, conflictPicks [ce1, ce2] [] = some picks ∧
        noResolutionApplies mst0 "a" (sortPicks picks) ∧
        mst0.forceLatest = false ∧ mst0.interactive = false)) ∧
    (∀ nm ps, (electSuitable mst0 "a" [ce1, ce2] []).2 =
        ElectOutcome.conflictError nm ps →
      nm = "a" ∧ ∃ picks, conflictPicks [ce1, ce2] [] = some picks ∧
        ps = sortPicks picks) :=
  electSuitable_econflict_characterization mst0 "a" [ce1, ce2] []

theorem lookupRes_upsertRes (tbl : List (String × Target)) (k : String) (v : Target) :
    lookupRes (upsertRes tbl k v) k = some v := by
  unfold lookupRes upsertRes
  cases hf : (tbl.find? fun p => p.1 = k).isSome with
  | true =>
      rw [if_pos rfl]
      induction tbl with
      | nil => simp at hf
      | cons a t ih =>
          by_cases ha : a.1 = k
          · simp [List.find?_cons, ha]
          · rw [List.find?_cons_of_neg _ (by simp [ha])] at hf
            simp only [List.map_cons, if_neg ha]
            rw [List.find?_cons_of_neg _ (by simp [ha])]
            exact ih hf
  | false =>
      rw [if_neg (by simp)]
      induction tbl with
      | nil => simp
      | cons a t ih =>
          by_cases ha : a.1 = k
          · rw [List.find?_cons_of_pos _ (by simp [ha])] at hf
            simp at hf
          · rw [List.find?_cons_of_neg _ (by simp [ha])] at hf
            simp only [List.cons_append]
            rw [List.find?_cons_of_neg _ (by simp [ha])]
            exact ih hf

theorem conflictStage_forceLatest (st : MState) (rId : String) (picks : List Ep)
    (pick : Ep)
    (hnores : noResolutionApplies st rId (sortPicks picks))
    (hfl : st.forceLatest = true)
    (hlast : (sortPicks picks).getLast? = some pick) :
    conflictStage st rId picks =
      (storeResolution pick (st.setConflicted rId), ElectOutcome.elected pick) := by
  have hres : (match lookupRes st.resolutions rId with
      | none => (none : Option Ep)
      | some res =>
          if ((sortPicks picks).find? fun pick => pick.unresolvable).isSome then none
          else resolutionMatch res (sortPicks picks)) = none := by
    unfold noResolutionApplies at hnores
    rcases hlr : lookupRes st.resolutions rId with _ | res
    · rfl
    · rw [hlr] at hnores
      simp only
      rcases hnores with h | h
      · simp [h]
      · split
        · rfl
        · exact h
  simp only [conflictStage]
  rw [hres, hfl, if_pos rfl, hlast]

/-- C3 (counterexample to the claim as stated): a conflict with
`forceLatest` set in which a stored resolution applies — `_electSuitable`
elects the stored match `ce1`, not the last sorted candidate `ce2`, and
persists nothing. -/
theorem sortPicks_ce : sortPicks [ce1, ce2] = [ce1, ce2] := by
  simp [sortPicks, List.mergeSort, List.merge]
  norm_num [pickLe, pickCmp, ce1, ce2, mkEp, Ep.version?, v100, v200, Version.comp]

theorem forceLatest_counterexample :
    stC3.forceLatest = true ∧
    conflictPicks [ce1, ce2] [] = some [ce1, ce2] ∧
    (sortPicks [ce1, ce2]).getLast? = some ce2 ∧
    (electSuitable stC3 "a" [ce1, ce2] []).2 = ElectOutcome.elected ce1 ∧
    ce1 ≠ ce2 ∧
    (electSuitable stC3 "a" [ce1, ce2] []).1.resolutions = stC3.resolutions := by
  have hel : electSuitable stC3 "a" [ce1, ce2] [] =
      (stC3.setConflicted "a", ElectOutcome.elected ce1) := by
    rw [electSuitable_eq_conflictStage stC3 "a" [ce1, ce2] [] [ce1, ce2] (by decide)]
    simp only [conflictStage, sortPicks_ce]
    rfl
  refine ⟨rfl, by decide, by rw [sortPicks_ce]; decide, ?_, by decide, ?_⟩
  · rw [hel]
  · rw [hel]; rfl

/-- C3 (amended): on a conflict with `forceLatest` set *and no stored
resolution applying*, `_electSuitable` elects the last candidate of the
picks list after sorting by (version ascending, a versioned pick above an
unversioned one, then dependant count descending), and persists it via
`_storeResolution`: `resolutions[rId]` becomes the pick's target unless
that target is `*`, in which case the stored value is `pkgMeta._release`,
or `*` when `_release` is absent. -/
theorem electSuitable_forceLatest_elects_last (st : MState) (rId : String)
    (semvers nonSemvers picks : List Ep) (pick : Ep)
    (hconf : conflictPicks semvers nonSemvers = some picks)
    (hnores : noResolutionApplies st rId (sortPicks picks))
    (hfl : st.forceLatest = true)
    (hlast : (sortPicks picks).getLast? = some pick)
    (hrid : pick.rid = rId) :
    (electSuitable st rId semvers nonSemvers).2 = ElectOutcome.elected pick ∧
    lookupRes (electSuitable st rId semvers nonSemvers).1.resolutions rId =
      some (if pick.target = Target.star then pick.release?.getD Target.star
            else pick.target) := by
  rw [electSuitable_eq_conflictStage st rId _ _ picks hconf]
  rw [conflictStage_forceLatest st rId picks pick hnores hfl hlast]
  refine ⟨rfl, ?_⟩
  unfold storeResolution
  rw [← hrid]
  exact lookupRes_upsertRes _ _ _

/-- Closed witness for `electSuitable_forceLatest_elects_last`: with no
stored resolutions and `forceLatest`, the higher version `2.0.0` is elected
and persisted under its exact target. -/
theorem electSuitable_forceLatest_witness :
    (conflictPicks [ce1, ce2] [] = some [ce1, ce2] ∧
      noResolutionApplies stFL "a" (sortPicks [ce1, ce2]) ∧
      stFL.forceLatest = true ∧
      (sortPicks [ce1, ce2]).getLast? = some ce2 ∧ ce2.rid = "a") ∧
    ((electSuitable stFL "a" [ce1, ce2] []).2 = ElectOutcome.elected ce2 ∧
      lookupRes (electSuitable stFL "a" [ce1, ce2] []).1.resolutions "a" =
        some (if ce2.target = Target.star then ce2.release?.getD Target.star
              else ce2.target)) := by
  have h2 : noResolutionApplies stFL "a" (sortPicks [ce1, ce2]) := by
    rw [sortPicks_ce]; decide
  have h4 : (sortPicks [ce1, ce2]).getLast? = some ce2 := by
    rw [sortPicks_ce]; decide
  exact ⟨⟨by decide, h2, by decide, h4, by decide⟩,
    electSuitable_forceLatest_elects_last stFL "a" [ce1, ce2] [] [ce1, ce2] ce2
      (by decide) h2 (by decide) h4 (by decide)⟩

/-- C4: for endpoints whose targets are unequal valid semver ranges (valid
ranges that are not plain versions) with the resolved endpoint lacking a
`pkgMeta.version`, `_areCompatible` returns true exactly when the two
ranges' highest caps exist and agree in both version and comparator
prefix — so the ranges' lower bounds never affect the result.  The
`capSafe` hypotheses exclude the range shapes on which the JS `_getCap`
fold would throw instead of answering. -/
theorem areCompatible_range_range (c r : Ep)
    (hne : c.target ≠ r.target)
    (hcr : c.target.validRangeB = true) (hcv : c.target.validB = false)
    (hrr : r.target.validRangeB = true) (hrv : r.target.validB = false)
    (hcs : c.target.capSafe = true) (hrs : r.target.capSafe = true)
    (hnov : r.pkgMeta.bind PkgMeta.version = none) :
    areCompatible c r = true ↔
      ∃ capc capr, getCap (toComparators c.target) CapSide.highest = some capc ∧
        getCap (toComparators r.target) CapSide.highest = some capr ∧
        capc.version = capr.version ∧ capc.comparator = capr.comparator := by
  simp only [areCompatible, hnov, if_neg hne, hcv, hcr, hrv, hrr,
    Bool.false_and, Bool.and_false, Bool.true_and, Bool.and_true,
    Bool.false_eq_true, if_false, if_true]
  rcases hgc : getCap (toComparators c.target) CapSide.highest with _ | capc
  · simp
  · rcases hgr : getCap (toComparators r.target) CapSide.highest with _ | capr
    · simp
    · simp [verEq, Option.some.injEq]

/-- Closed witness for `areCompatible_range_range`: `>=1.0.0 <2.0.0` and
`>=1.5.0 <2.0.0` share the cap `<2.0.0` and are compatible although their
lower bounds disagree. -/
theorem areCompatible_range_range_witness :
    (w4c.target ≠ w4r.target ∧ w4c.target.validRangeB = true ∧
      w4c.target.validB = false ∧ w4r.target.validRangeB = true ∧
      w4r.target.validB = false ∧ w4c.target.capSafe = true ∧
      w4r.target.capSafe = true ∧ w4r.pkgMeta.bind PkgMeta.version = none ∧
      areCompatible w4c w4r = true) ∧
    (areCompatible w4c w4r = true ↔
      ∃ capc capr, getCap (toComparators w4c.target) CapSide.highest = some capc ∧
        getCap (toComparators w4r.target) CapSide.highest = some capr ∧
        capc.version = capr.version ∧ capc.comparator = capr.comparator) :=
  ⟨⟨by decide, by decide, by decide, by decide, by decide, by decide, by decide,
      by decide, by decide⟩,
    areCompatible_range_range w4c w4r (by decide) (by decide) (by decide)
      (by decide) (by decide) (by decide) (by decide) (by decide)⟩

/-- C5: every endpoint of a resolved list that enters `_dissect` with
`newly`, target `*`, not `untargetable` and `pkgMeta.version = V` comes out
of the dissect semver processing with target `~V` and its original `*`
target recorded in `originalTarget`. -/
theorem dissect_promotes (l : List Ep) (e : Ep) (V : Version)
    (hmem : e ∈ l) (hn : e.newly = true) (ht : e.target = Target.star)
    (hu : e.untargetable = false) (hv : e.version? = some V) :
    { e with target := tildeTarget V, originalTarget := some Target.star } ∈
      dissectSemvers l := by
  unfold dissectSemvers
  have hf : e ∈ l.filter (fun x => x.version?.isSome) := by
    rw [List.mem_filter]
    exact ⟨hmem, by rw [hv]; rfl⟩
  have hms : e ∈ (l.filter (fun x => x.version?.isSome)).mergeSort dissectLe :=
    List.mem_mergeSort.mpr hf
  refine List.mem_map.mpr ⟨e, hms, ?_⟩
  unfold promoteOne
  rw [hn, ht, hu, hv]
  simp

/-- Closed witness for `dissect_promotes`: a newly added wildcard endpoint
with version `1.2.3` is promoted to `~1.2.3`. -/
theorem dissect_promotes_witness :
    (w5e ∈ [w5e] ∧ w5e.newly = true ∧ w5e.target = Target.star ∧
      w5e.untargetable = false ∧ w5e.version? = some v123) ∧
    { w5e with target := tildeTarget v123, originalTarget := some Target.star } ∈
      dissectSemvers [w5e] :=
  ⟨⟨by decide, by decide, by decide, by decide, by decide⟩,
    dissect_promotes [w5e] w5e v123 (by decide) (by decide) (by decide)
      (by decide) (by decide)⟩

/-- C7: evaluation of the twin-handling insertion at a failing input.  The
twin `c7twin` (same source and target, dependant `c7d`) is spliced out of
`resolved[newRId]` and the fetched endpoint `c7e` pushed, but — because the
code reads `resolved[index.dependants]`, which is `undefined` — the twin's
dependant `c7d` is *not* merged into `c7e.dependants`, contradicting the
`// Merge dependants` intent: the result keeps only `c7e`'s own dependant. -/
theorem onFetchSuccess_twin_drops_dependants :
    c7d ∈ c7twin.dependants ∧
    nextStepInsert [c7twin] c7e = [c7e] ∧
    (∀ r ∈ nextStepInsert [c7twin] c7e, c7d ∉ r.dependants) := by
  decide

/-- C8: evaluation of the `resolve()` entry at a failing input.  `c8Mid` is
the state of a Manager mid-run (`_nrFetching = 1`, one endpoint in
`_fetching`) — with `_working = false`, because no code path in
`Manager.js` ever sets `_working` to `true`.  A second `resolve()` call
therefore does not reject with `EWORKING`: it proceeds and resets the
in-progress run's `_fetching`, `_nrFetching`, `_failed`, `_hasFailed` and
deferred promise.  The final conjunct shows the guard itself is the only
consumer of `_working` and `resolveEntry` never turns it on. -/
theorem resolve_reentrancy_not_guarded :
    c8Mid.fetching ≠ [] ∧ c8Mid.nrFetching = 1 ∧
    (resolveEntry c8Mid).2 = ResolveStart.started ∧
    (resolveEntry c8Mid).1.fetching = [] ∧
    (resolveEntry c8Mid).1.nrFetching = 0 ∧
    (∀ st : RState, (resolveEntry st).1.working = st.working ∧
      ((resolveEntry st).2 = ResolveStart.eworking ↔ st.working = true)) := by
  refine ⟨by decide, by decide, by decide, by decide, by decide, ?_⟩
  intro st
  unfold resolveEntry
  cases hw : st.working with
  | true => simp [hw]
  | false => simp [hw]

theorem uid_mem_allIds (store : Store) (eid : Nat) (e : GEp)
    (h : lookupStore store eid = some e) : uniqueId e ∈ allIds store := by
  unfold lookupStore at h
  obtain ⟨p, hp, hpe⟩ := Option.map_eq_some'.mp h
  have hmem : p ∈ store := List.mem_of_find?_eq_some hp
  unfold allIds
  exact List.mem_map.mpr ⟨p, hmem, by rw [hpe]⟩

theorem tmeasure_child_lt (store : Store) (eid : Nat) (e : GEp) (cid : Nat)
    (c : GEp) (upper : List (Option String × String × Target))
    (he : lookupStore store eid = some e) (hc : lookupStore store cid = some c)
    (hnot : uniqueId c ∉ upper) :
    tmeasure store cid (upper ++ [uniqueId e]) < tmeasure store eid upper := by
  unfold tmeasure
  have hue : uidOf store eid = uniqueId e := by unfold uidOf; rw [he]
  have huc : uidOf store cid = uniqueId c := by unfold uidOf; rw [hc]
  rw [hue, huc]
  have hAppend : (upper ++ [uniqueId e]).toFinset =
      upper.toFinset ∪ {uniqueId e} := by
    simp [List.toFinset_append]
  by_cases hin : uniqueId e ∈ upper
  · have hset : (upper ++ [uniqueId e]).toFinset = upper.toFinset := by
      rw [hAppend]
      exact Finset.union_eq_left.mpr
        (Finset.singleton_subset_iff.mpr (List.mem_toFinset.mpr hin))
    rw [hset]
    have hne : uniqueId c ≠ uniqueId e := fun hEq => hnot (hEq ▸ hin)
    have hnotc : uniqueId c ∉ upper ++ [uniqueId e] := by
      rw [List.mem_append]
      rintro (h | h)
      · exact hnot h
      · exact hne (List.mem_singleton.mp h)
    rw [if_pos hin, if_neg hnotc]
    omega
  · have hmemA : uniqueId e ∈ (allIds store).toFinset :=
      List.mem_toFinset.mpr (uid_mem_allIds store eid e he)
    have hsd : (allIds store).toFinset \ (upper ++ [uniqueId e]).toFinset =
        ((allIds store).toFinset \ upper.toFinset).erase (uniqueId e) := by
      rw [hAppend]
      ext x
      simp only [Finset.mem_sdiff, Finset.mem_union, Finset.mem_erase,
        Finset.mem_singleton]
      tauto
    rw [hsd]
    have hmem2 : uniqueId e ∈ (allIds store).toFinset \ upper.toFinset :=
      Finset.mem_sdiff.mpr ⟨hmemA, fun hx => hin (List.mem_toFinset.mp hx)⟩
    rw [Finset.card_erase_of_mem hmem2]
    have hpos : 0 < ((allIds store).toFinset \ upper.toFinset).card :=
      Finset.card_pos.mpr ⟨_, hmem2⟩
    rw [if_neg hin]
    have hle : (if uniqueId c ∈ upper ++ [uniqueId e] then 1 else 0) ≤ 1 := by
      split <;> omega
    omega

theorem toDataF_isSome_of_tmeasure_lt (store : Store) :
    ∀ fuel eid upper, tmeasure store eid upper < fuel →
      (toDataF store fuel eid upper).isSome = true := by
  intro fuel
  induction fuel with
  | zero => intro eid upper h; exact absurd h (Nat.not_lt_zero _)
  | succ fuel ih =>
      intro eid upper h
      cases hl : lookupStore store eid with
      | none => simp [toDataF, hl]
      | some e =>
          have hch : ∀ l : List (String × Nat),
              (toDataChildren store fuel l upper (uniqueId e)).isSome = true := by
            intro l
            induction l with
            | nil => simp [toDataChildren]
            | cons p rest ihl =>
                obtain ⟨nm, cid⟩ := p
                cases hcl : lookupStore store cid with
                | none => simpa only [toDataChildren, hcl] using ihl
                | some child =>
                    by_cases hmem : uniqueId child ∈ upper
                    · simp only [toDataChildren, hcl]
                      rw [if_pos hmem]
                      exact ihl
                    · have hlt : tmeasure store cid (upper ++ [uniqueId e]) < fuel := by
                        have := tmeasure_child_lt store eid e cid child upper hl hcl hmem
                        omega
                      obtain ⟨d, hd⟩ := Option.isSome_iff_exists.mp
                        (ih cid (upper ++ [uniqueId e]) hlt)
                      obtain ⟨ds, hds⟩ := Option.isSome_iff_exists.mp ihl
                      simp only [toDataChildren, hcl, if_neg hmem, hd, hds,
                        Option.isSome_some]
          obtain ⟨ds, hds⟩ := Option.isSome_iff_exists.mp
            (hch (e.dependencies.mergeSort (fun a b => decide (a.1 ≤ b.1))))
          simp only [toDataF, hl, hds, Option.isSome_some]

/-- C9: `Manager.toData` terminates on every endpoint dependency graph,
including cyclic graphs and self-loops: the fuelled embedding `toDataF`
completes within `2·|store| + 1` nested calls from any root, because the
recursion skips any child whose unique id already appears in the ancestor
id chain `upperDeps`. -/
theorem toData_terminates (store : Store) (eid : Nat) :
    (toDataF store (2 * store.length + 1) eid []).isSome = true := by
  apply toDataF_isSome_of_tmeasure_lt
  unfold tmeasure
  have h1 : ((allIds store).toFinset \ ([] : List (Option String × String × Target)).toFinset).card ≤
      store.length := by
    simp only [List.toFinset_nil, Finset.sdiff_empty]
    calc (allIds store).toFinset.card ≤ (allIds store).length :=
          List.toFinset_card_le _
      _ = store.length := by unfold allIds; exact List.length_map _ _
  have h2 : (if uidOf store eid ∈ ([] : List (Option String × String × Target)) then 1 else 0) = 0 := by
    simp
  omega

/-- Closed instantiation of `toData_terminates` on a concrete cyclic graph
with a self-loop. -/
theorem toData_terminates_witness :
    (toDataF c9Store (2 * c9Store.length + 1) 0 []).isSome = true :=
  toData_terminates c9Store 0

/-- C10: once a fetch error has set `hasFailed` in a run, `_fetch` is a
no-op — the state (in particular `fetching` and `nrFetching`) is returned
unchanged and `repository.fetch` is not invoked — and no pipeline
transition (`_onFetchError`, `_failFast`, any suspension boundary of
`_onFetchSuccess`) ever clears `hasFailed` within the run, so no new fetch
ever starts. -/
theorem fetch_noop_after_failure (st : PS) (e e2 e3 : Ep) (err : Nat)
    (canonicalDir : String) (pkgMeta : PkgMeta)
    (h : st.hasFailed = true) :
    fetchM st e = (st, false) ∧
    (onFetchErrorM st e2 err).hasFailed = true ∧
    (failFastM st).hasFailed = true ∧
    (∀ s ∈ onFetchSuccessStates st e3 canonicalDir pkgMeta, s.hasFailed = true) := by
  refine ⟨?_, ?_, ?_, ?_⟩
  · unfold fetchM
    rw [h]
    simp
  · simp [onFetchErrorM, failFastM, h]
  · simp [failFastM, h]
  · intro s hs
    simp only [onFetchSuccessStates] at hs
    split at hs
    · simp only [List.mem_cons, List.mem_singleton, List.not_mem_nil,
        or_false] at hs
      rcases hs with rfl | rfl
      · exact h
      · simp [nextStepState, h]
    · simp only [List.mem_singleton, List.mem_cons, List.not_mem_nil,
        or_false] at hs
      subst hs
      simp [nextStepState, h]

/-- Closed witness for `fetch_noop_after_failure` at a state whose
`hasFailed` flag is set. -/
theorem fetch_noop_after_failure_witness :
    c10St.hasFailed = true ∧
    (fetchM c10St c6Ep = (c10St, false) ∧
      (onFetchErrorM c10St c6Ep 0).hasFailed = true ∧
      (failFastM c10St).hasFailed = true ∧
      (∀ s ∈ onFetchSuccessStates c10St c6wEp "/d" c6wPkg, s.hasFailed = true)) :=
  ⟨by decide,
    fetch_noop_after_failure c10St c6Ep c6Ep c6wEp 0 "/d" c6wPkg (by decide)⟩

theorem mem_map_eid_removeFirstEid (l : List Ep) (x i : Nat)
    (h : i ∈ (removeFirstEid l x).map Ep.eid) : i ∈ l.map Ep.eid := by
  induction l with
  | nil => simpa [removeFirstEid] using h
  | cons a t ih =>
      unfold removeFirstEid at h
      split at h
      · simp only [List.map_cons, List.mem_cons]
        exact Or.inr h
      · simp only [List.map_cons, List.mem_cons] at h ⊢
        rcases h with h | h
        · exact Or.inl h
        · exact Or.inr (ih h)

theorem not_mem_map_eid_removeFirstEid (l : List Ep) (x : Nat)
    (h : (l.map Ep.eid).count x ≤ 1) : x ∉ (removeFirstEid l x).map Ep.eid := by
  induction l with
  | nil => simp [removeFirstEid]
  | cons a t ih =>
      unfold removeFirstEid
      by_cases ha : a.eid = x
      · rw [if_pos ha]
        intro hx
        have : 1 ≤ (t.map Ep.eid).count x := List.one_le_count_iff.mpr hx
        have hc : ((a :: t).map Ep.eid).count x =
            (t.map Ep.eid).count x + 1 := by
          simp [List.count_cons, ha]
        omega
      · rw [if_neg ha]
        have hc : ((a :: t).map Ep.eid).count x = (t.map Ep.eid).count x := by
          simp [List.count_cons, ha]
        intro hx
        simp only [List.map_cons, List.mem_cons] at hx
        rcases hx with hx | hx
        · exact ha hx.symm
        · exact ih (by omega) hx

theorem mem_fetEids_removeFet (tbl : List ((String × Target) × List Ep))
    (k : String × Target) (x i : Nat)
    (h : i ∈ fetEids (removeFet tbl k x)) : i ∈ fetEids tbl := by
  unfold fetEids at h ⊢
  unfold removeFet at h
  rw [List.mem_flatten] at h ⊢
  obtain ⟨l, hl, hil⟩ := h
  rw [List.mem_map] at hl
  obtain ⟨q, hq, hql⟩ := hl
  rw [List.mem_map] at hq
  obtain ⟨p, hp, hpq⟩ := hq
  refine ⟨p.2.map Ep.eid, List.mem_map.mpr ⟨p, hp, rfl⟩, ?_⟩
  subst hpq
  subst hql
  by_cases hk : p.1 = k
  · rw [if_pos hk] at hil
    exact mem_map_eid_removeFirstEid _ _ _ (by simpa using hil)
  · rw [if_neg hk] at hil
    exact hil

theorem not_mem_fetEids_removeFet (tbl : List ((String × Target) × List Ep))
    (k : String × Target) (x : Nat)
    (hloc : ∀ p ∈ tbl, x ∈ p.2.map Ep.eid → p.1 = k)
    (hocc : ∀ p ∈ tbl, (p.2.map Ep.eid).count x ≤ 1) :
    x ∉ fetEids (removeFet tbl k x) := by
  unfold fetEids removeFet
  rw [List.mem_flatten]
  rintro ⟨l, hl, hil⟩
  rw [List.mem_map] at hl
  obtain ⟨q, hq, hql⟩ := hl
  rw [List.mem_map] at hq
  obtain ⟨p, hp, hpq⟩ := hq
  subst hpq
  subst hql
  by_cases hk : p.1 = k
  · rw [if_pos hk] at hil
    exact not_mem_map_eid_removeFirstEid p.2 x (hocc p hp) (by simpa using hil)
  · rw [if_neg hk] at hil
    exact hk (hloc p hp (by simpa using hil))

theorem mem_resEids_setEps (tbl : List (String × List Ep)) (k : String)
    (l : List Ep) (i : Nat) (h : i ∈ resEids (setEps tbl k l)) :
    i ∈ l.map Ep.eid ∨ i ∈ resEids tbl := by
  unfold resEids at h ⊢
  unfold setEps at h
  split at h
  · rw [List.mem_flatten] at h
    obtain ⟨li, hli, hil⟩ := h
    rw [List.mem_map] at hli
    obtain ⟨q, hq, hql⟩ := hli
    rw [List.mem_map] at hq
    obtain ⟨p, hp, hpq⟩ := hq
    subst hpq
    subst hql
    by_cases hk : p.1 = k
    · rw [if_pos hk] at hil
      exact Or.inl (by simpa using hil)
    · rw [if_neg hk] at hil
      exact Or.inr (List.mem_flatten.mpr
        ⟨p.2.map Ep.eid, List.mem_map.mpr ⟨p, hp, rfl⟩, by simpa using hil⟩)
  · rw [List.map_append, List.flatten_append, List.mem_append] at h
    rcases h with h | h
    · exact Or.inr h
    · simp only [List.map_cons, List.map_nil, List.flatten_cons,
        List.flatten_nil, List.append_nil] at h
      exact Or.inl h

theorem mem_resEids_of_lookupEps (tbl : List (String × List Ep)) (k : String)
    (l : List Ep) (hl : lookupEps tbl k = some l) (i : Nat)
    (hi : i ∈ l.map Ep.eid) : i ∈ resEids tbl := by
  unfold lookupEps at hl
  obtain ⟨p, hp, hpe⟩ := Option.map_eq_some'.mp hl
  have hmem : p ∈ tbl := List.mem_of_find?_eq_some hp
  unfold resEids
  exact List.mem_flatten.mpr
    ⟨p.2.map Ep.eid, List.mem_map.mpr ⟨p, hmem, rfl⟩, by rw [hpe]; exact hi⟩

theorem mem_resEids_pushEps (tbl : List (String × List Ep)) (k : String)
    (e : Ep) (i : Nat) (h : i ∈ resEids (pushEps tbl k e)) :
    i ∈ resEids tbl ∨ i = e.eid := by
  unfold pushEps at h
  cases hl : lookupEps tbl k with
  | some l =>
      rw [hl] at h
      rcases mem_resEids_setEps tbl k (l ++ [e]) i h with hm | hm
      · rw [List.map_append, List.mem_append] at hm
        rcases hm with hm | hm
        · exact Or.inl (mem_resEids_of_lookupEps tbl k l hl i hm)
        · simp only [List.map_cons, List.map_nil, List.mem_singleton] at hm
          exact Or.inr hm
      · exact Or.inl hm
  | none =>
      rw [hl] at h
      rcases mem_resEids_setEps tbl k [e] i h with hm | hm
      · simp only [List.map_cons, List.map_nil, List.mem_singleton] at hm
        exact Or.inr hm
      · exact Or.inl hm

theorem mem_map_eid_nextStepInsert (L : List Ep) (e : Ep) (i : Nat)
    (h : i ∈ (nextStepInsert L e).map Ep.eid) :
    i ∈ L.map Ep.eid ∨ i = e.eid := by
  unfold nextStepInsert at h
  split at h
  · rw [List.map_append, List.mem_append] at h
    rcases h with h | h
    · exact Or.inl (List.map_subset _ (List.eraseIdx_subset _ _) h)
    · simp only [List.map_cons, List.map_nil, List.mem_singleton] at h
      exact Or.inr h
  · rw [List.map_append, List.mem_append] at h
    rcases h with h | h
    · exact Or.inl h
    · simp only [List.map_cons, List.map_nil, List.mem_singleton] at h
      exact Or.inr h

theorem mem_resEids_insertFinal (tbl : List (String × List Ep)) (K : String)
    (E : Ep) (i : Nat)
    (h : i ∈ resEids (setEps tbl K (nextStepInsert ((lookupEps tbl K).getD []) E))) :
    i ∈ resEids tbl ∨ i = E.eid := by
  rcases mem_resEids_setEps tbl K _ i h with hm | hm
  · rcases mem_map_eid_nextStepInsert _ _ i hm with hm2 | hm2
    · cases hl : lookupEps tbl K with
      | some L =>
          rw [hl] at hm2
          exact Or.inl (mem_resEids_of_lookupEps tbl K L hl i (by simpa using hm2))
      | none =>
          rw [hl] at hm2
          simp at hm2
    · exact Or.inr hm2
  · exact Or.inl hm

theorem nextStepState_disjoint (st : PS) (e : Ep) (iname renamedTo : Option String)
    (name0 canonicalDir : String) (pkgMeta : PkgMeta)
    (hfr : ∀ i, i ∈ st.fetchingEids → i ≠ e.eid → i ∉ st.resolvedEids)
    (hloc : ∀ p ∈ st.fetching, e.eid ∈ p.2.map Ep.eid →
      p.1 = (getGuid e iname).fId)
    (hocc : ∀ p ∈ st.fetching, (p.2.map Ep.eid).count e.eid ≤ 1) :
    (nextStepState st e iname (getGuid e iname) renamedTo name0 canonicalDir
      pkgMeta).disjointFR := by
  intro i hif
  simp only [nextStepState, PS.fetchingEids, PS.resolvedEids] at hif ⊢
  have hif2 : i ∈ fetEids st.fetching :=
    mem_fetEids_removeFet st.fetching (getGuid e iname).fId e.eid i hif
  have hine : i ≠ e.eid := by
    intro hEq
    subst hEq
    exact not_mem_fetEids_removeFet st.fetching (getGuid e iname).fId e.eid
      hloc hocc hif
  intro hir
  rcases mem_resEids_insertFinal st.resolved _ _ i hir with hm | hm
  · exact hfr i hif2 hine hm
  · cases renamedTo with
    | some newName => exact hine hm
    | none => exact hine hm

/-- C6 (counterexample to the claim as stated): the rename path of
`_onFetchSuccess` pushes the endpoint into `resolved[oldRId]` *before* the
filesystem move and only removes it from `fetching` in the post-move
`nextStep`.  At the move suspension boundary (`c6Mid`, the first state
returned by `onFetchSuccessStates`), endpoint 1 sits in a `fetching` list
and in a `resolved` list at the same time. -/
theorem rename_window_overlap :
    c6St.disjointFR ∧
    c6Mid ∈ onFetchSuccessStates c6St c6Ep "/tmp/canonical" c6Pkg ∧
    c6Ep.eid ∈ c6Mid.fetchingEids ∧
    c6Ep.eid ∈ c6Mid.resolvedEids ∧
    ¬ c6Mid.disjointFR := by
  decide

/-- C6 (amended): no endpoint is simultaneously in a `fetching[fId]` list
and a `resolved[rId]` list at any suspension boundary of a resolve run,
*except* inside the rename window of `_onFetchSuccess` — between the
insertion of the fetched endpoint into `resolved[oldRId]` and the
completion of the filesystem move — where that endpoint alone is in both;
the post-move `nextStep` restores disjointness.  Concretely: from a
disjoint state in which the fetched endpoint occurs only in its own
`fetching[fId]` list and at most once there, the *final* state of
`_onFetchSuccess` is always disjoint, and when no rename triggers, every
suspension boundary is disjoint. -/
theorem onFetchSuccess_disjoint (st : PS) (e : Ep) (canonicalDir : String)
    (pkgMeta : PkgMeta)
    (hdis : st.disjointFR)
    (hloc : ∀ p ∈ st.fetching, e.eid ∈ p.2.map Ep.eid →
      p.1 = (getGuid e (e.initialName.orElse (fun _ => e.name))).fId)
    (hocc : ∀ p ∈ st.fetching, (p.2.map Ep.eid).count e.eid ≤ 1) :
    (∀ s, (onFetchSuccessStates st e canonicalDir pkgMeta).getLast? = some s →
      s.disjointFR) ∧
    ((fetchName e = pkgMeta.name ∨
        (st.renamed.find? (fun p => p.1 = pkgMeta.name)).map Prod.snd =
          some (fetchName e)) →
      ∀ s ∈ onFetchSuccessStates st e canonicalDir pkgMeta, s.disjointFR) := by
  constructor
  · intro s hs
    simp only [onFetchSuccessStates] at hs
    split at hs
    · rw [List.getLast?_cons_cons, List.getLast?_singleton] at hs
      obtain rfl := Option.some.inj hs
      apply nextStepState_disjoint
      · intro i hi hne hri
        rcases mem_resEids_pushEps st.resolved _ e i hri with hm | hm
        · exact hdis i hi hm
        · exact hne hm
      · exact hloc
      · exact hocc
    · rw [List.getLast?_singleton] at hs
      obtain rfl := Option.some.inj hs
      apply nextStepState_disjoint
      · intro i hi hne hri
        exact hdis i hi hri
      · exact hloc
      · exact hocc
  · intro hnr s hs
    simp only [onFetchSuccessStates] at hs
    split at hs
    · rename_i hcond
      exfalso
      rcases hnr with h | h
      · exact hcond.1 h
      · exact hcond.2 h
    · simp only [List.mem_singleton, List.mem_cons, List.not_mem_nil,
        or_false] at hs
      subst hs
      apply nextStepState_disjoint
      · intro i hi hne hri
        exact hdis i hi hri
      · exact hloc
      · exact hocc

/-- Closed witness for `onFetchSuccess_disjoint`: a non-rename fetch
success (manifest name `lib/v2` equals the source/target join) on a
disjoint state keeps every boundary disjoint. -/
theorem onFetchSuccess_disjoint_witness :
    (c6wSt.disjointFR ∧
      (∀ p ∈ c6wSt.fetching, c6wEp.eid ∈ p.2.map Ep.eid →
        p.1 = (getGuid c6wEp (c6wEp.initialName.orElse (fun _ => c6wEp.name))).fId) ∧
      (∀ p ∈ c6wSt.fetching, (p.2.map Ep.eid).count c6wEp.eid ≤ 1)) ∧
    ((∀ s, (onFetchSuccessStates c6wSt c6wEp "/d" c6wPkg).getLast? = some s →
        s.disjointFR) ∧
      ((fetchName c6wEp = c6wPkg.name ∨
          (c6wSt.renamed.find? (fun p => p.1 = c6wPkg.name)).map Prod.snd =
            some (fetchName c6wEp)) →
        ∀ s ∈ onFetchSuccessStates c6wSt c6wEp "/d" c6wPkg, s.disjointFR)) :=
  ⟨⟨by decide, by decide, by decide⟩,
    onFetchSuccess_disjoint c6wSt c6wEp "/d" c6wPkg (by decide) (by decide)
      (by decide)⟩

end Gitsu
